import Mathlib

/-!
Shallow embedding of the serial instrument protocol layer of the
ten_jrrs_system repository, together with proofs about it.

Byte strings are modelled as `List Nat` whose elements are below 256; machine
arithmetic that Python performs on unbounded ints is kept as `Nat` arithmetic
with explicit masks (`&&& 0xFF`, `% 256`, ...) exactly where the source has
them.  Fallible parsing methods (which raise `ModbusError` subclasses in
Python) are modelled as `Except`-valued functions.

* `GearPumpController` embeds `gearpump_control.py` (Modbus-RTU style codec).
* `RelayControl` embeds `relay_control.py` (proprietary checksum protocol).
-/

namespace GearPumpController

/-- `struct.pack('>H', v)`: the two big-endian bytes of a 16-bit value. -/
def pack16be (v : Nat) : List Nat := [v / 256 % 256, v % 256]

/-- `struct.pack('<H', v)`: the two little-endian bytes of a 16-bit value. -/
def pack16le (v : Nat) : List Nat := [v % 256, v / 256 % 256]

/-- `struct.unpack('<H', b)[0]` on a two-byte string: little-endian decode. -/
def le16dec (l : List Nat) : Nat := l.getD 0 0 + 256 * l.getD 1 0

/-- `struct.unpack('>' + 'H' * count, data)`: split a byte string into
big-endian 16-bit words. -/
def words16be : List Nat → List Nat
  | a :: b :: rest => (256 * a + b) :: words16be rest
  | [_] => []
  | [] => []

/-- One iteration of the inner loop of `_calculate_crc`:
`if crc & 0x0001: crc >>= 1; crc ^= 0xA001 else: crc >>= 1`. -/
def crcRound (crc : Nat) : Nat :=
  if crc &&& 0x0001 = 1 then (crc >>> 1) ^^^ 0xA001 else crc >>> 1

/-- Left inverse of `crcRound` on 16-bit states, used to show that each CRC
step is injective: bit 15 of the output records whether the polynomial was
xored in, i.e. whether the input was odd. -/
def crcUnround (v : Nat) : Nat :=
  if v.testBit 15 then 2 * (v ^^^ 0xA001) + 1 else 2 * v

/-- Processing of one input byte by `_calculate_crc`:
`crc ^= byte` followed by eight inner-loop iterations. -/
def crcByte (crc byte : Nat) : Nat := crcRound^[8] (crc ^^^ byte)

/-- `GearPumpController._calculate_crc`: Modbus CRC16, initial value `0xFFFF`,
polynomial `0xA001`, processed over all bytes of `data`. -/
def _calculate_crc (data : List Nat) : Nat := data.foldl crcByte 0xFFFF

/-- The errors raised by the parsing methods (`ModbusError` with an
"Incomplete response" or "Unexpected byte count" message, `ModbusExceptionError`,
`CRCMismatchError`), plus the raw `IndexError` Python raises when
`unsigned_data[0]` is taken from an empty tuple. -/
inductive ModbusErr where
  | incomplete (expected got : Nat)
  | deviceException (code : Nat)
  | badByteCount (got expected : Nat)
  | crcMismatch
  | indexError
deriving DecidableEq, Repr

/-- The value returned by `_parse_read_response`: the Python method returns
`unsigned_data` (a tuple) when `register_count > 1` and `unsigned_data[0]`
(a plain integer) otherwise. -/
inductive ReadValue where
  | single (v : Nat)
  | multiple (vs : List Nat)
deriving DecidableEq, Repr

/-- `GearPumpController._construct_read_coils_request`. -/
def _construct_read_coils_request (slave_id coil_address coil_count : Nat) :
    List Nat :=
  let request := [slave_id, 0x01] ++ pack16be coil_address ++ pack16be coil_count
  request ++ pack16le (_calculate_crc request)

/-- `GearPumpController._parse_coils_response`. -/
def _parse_coils_response (response : List Nat) (coil_count : Nat) :
    Except ModbusErr (List Nat) :=
  let byte_count_expected := (coil_count + 7) / 8
  let expected_length := 3 + byte_count_expected + 2
  if response.length < expected_length then
    .error (.incomplete expected_length response.length)
  else
    let function_code := response.getD 1 0
    if function_code = (0x01 ||| 0x80) then
      .error (.deviceException (response.getD 2 0))
    else
      let byte_count := response.getD 2 0
      if byte_count ≠ byte_count_expected then
        .error (.badByteCount byte_count byte_count_expected)
      else
        let coil_data := (response.drop 3).take byte_count
        let received_crc := le16dec (response.drop (response.length - 2))
        let calculated_crc := _calculate_crc (response.take (response.length - 2))
        if calculated_crc ≠ received_crc then
          .error .crcMismatch
        else
          .ok ((List.range coil_count).map fun i =>
            (coil_data.getD (i / 8) 0 >>> (i % 8)) &&& 0x01)

/-- `GearPumpController._construct_read_request` (function code 0x03). -/
def _construct_read_request (slave_id register_address register_count : Nat) :
    List Nat :=
  let request :=
    [slave_id, 0x03] ++ pack16be register_address ++ pack16be register_count
  request ++ pack16le (_calculate_crc request)

/-- `GearPumpController._parse_read_response` (function code 0x03). -/
def _parse_read_response (response : List Nat) (register_count : Nat) :
    Except ModbusErr ReadValue :=
  let expected_length := 5 + 2 * register_count
  if response.length < expected_length then
    .error (.incomplete expected_length response.length)
  else
    let function_code := response.getD 1 0
    if function_code = (0x03 ||| 0x80) then
      .error (.deviceException (response.getD 2 0))
    else
      let byte_count := response.getD 2 0
      if byte_count ≠ 2 * register_count then
        .error (.badByteCount byte_count (2 * register_count))
      else
        let data := (response.drop 3).take byte_count
        let unsigned_data := words16be data
        let received_crc := le16dec (response.drop (response.length - 2))
        let calculated_crc := _calculate_crc (response.take (response.length - 2))
        if calculated_crc ≠ received_crc then
          .error .crcMismatch
        else if register_count > 1 then
          .ok (.multiple unsigned_data)
        else
          match unsigned_data.head? with
          | some v => .ok (.single v)
          | none => .error .indexError

/-- `GearPumpController.read_register`: the request written to the line and the
parse of the peer's `response`. -/
def read_register (slave_id register_address register_count : Nat)
    (response : List Nat) : List Nat × Except ModbusErr ReadValue :=
  (_construct_read_request slave_id register_address register_count,
   _parse_read_response response register_count)

/-- `GearPumpController._construct_write_request` (function code 0x06). -/
def _construct_write_request (slave_id register_address value : Nat) : List Nat :=
  let request := [slave_id, 0x06] ++ pack16be register_address ++ pack16be value
  request ++ pack16le (_calculate_crc request)

/-- `GearPumpController._parse_write_response` (function code 0x06). -/
def _parse_write_response (response : List Nat) : Except ModbusErr (Nat × Nat) :=
  if response.length < 8 then
    .error (.incomplete 8 response.length)
  else
    let function_code := response.getD 1 0
    if function_code = (0x06 ||| 0x80) then
      .error (.deviceException (response.getD 2 0))
    else
      let register_address := 256 * response.getD 2 0 + response.getD 3 0
      let written_value := 256 * response.getD 4 0 + response.getD 5 0
      let received_crc := le16dec (response.drop (response.length - 2))
      let calculated_crc := _calculate_crc (response.take (response.length - 2))
      if calculated_crc ≠ received_crc then
        .error .crcMismatch
      else
        .ok (register_address, written_value)

/-- `GearPumpController.write_register`: the request written to the line and
the parse of the peer's `response`. -/
def write_register (slave_id register_address value : Nat)
    (response : List Nat) : List Nat × Except ModbusErr (Nat × Nat) :=
  (_construct_write_request slave_id register_address value,
   _parse_write_response response)

/-- `GearPumpController._construct_write_multiple_request` (function code 0x10). -/
def _construct_write_multiple_request (slave_id start_address : Nat)
    (values : List Nat) : List Nat :=
  let register_count := values.length
  let byte_count := register_count * 2
  let request :=
    [slave_id, 0x10] ++ pack16be start_address ++ pack16be register_count
      ++ [byte_count] ++ (values.map pack16be).flatten
  request ++ pack16le (_calculate_crc request)

/-- `GearPumpController._parse_write_multiple_response` (function code 0x10). -/
def _parse_write_multiple_response (response : List Nat) :
    Except ModbusErr (Nat × Nat) :=
  if response.length < 8 then
    .error (.incomplete 8 response.length)
  else
    let function_code := response.getD 1 0
    if function_code = (0x10 ||| 0x80) then
      .error (.deviceException (response.getD 2 0))
    else
      let start_address := 256 * response.getD 2 0 + response.getD 3 0
      let register_count := 256 * response.getD 4 0 + response.getD 5 0
      let received_crc := le16dec (response.drop (response.length - 2))
      let calculated_crc := _calculate_crc (response.take (response.length - 2))
      if calculated_crc ≠ received_crc then
        .error .crcMismatch
      else
        .ok (start_address, register_count)

/-- `GearPumpController.set_flow_rate`.  The caller's value is a Python int,
modelled as `Int`; the result is the returned boolean together with the list
of frames written to the serial line (empty when validation rejects the value
before any I/O). -/
def set_flow_rate (slave_id : Nat) (flow_rate : Int) (response : List Nat) :
    Bool × List (List Nat) :=
  if ¬(0 ≤ flow_rate ∧ flow_rate ≤ 0xFFFF) then
    (false, [])
  else
    let request := _construct_write_request slave_id 0x04B0 flow_rate.toNat
    match _parse_write_response response with
    | .ok (reg_addr, reg_val) =>
        (decide (reg_addr = 0x04B0 ∧ (reg_val : Int) = flow_rate), [request])
    | .error _ => (false, [request])

/-- `GearPumpController.set_rotate_rate`. -/
def set_rotate_rate (slave_id : Nat) (rotate_rate : Int) (response : List Nat) :
    Bool × List (List Nat) :=
  if ¬(0 ≤ rotate_rate ∧ rotate_rate ≤ 0xFFFF) then
    (false, [])
  else
    let request := _construct_write_request slave_id 0x04B2 rotate_rate.toNat
    match _parse_write_response response with
    | .ok (reg_addr, reg_val) =>
        (decide (reg_addr = 0x04B2 ∧ (reg_val : Int) = rotate_rate), [request])
    | .error _ => (false, [request])

/-- `GearPumpController.set_pump_state`: `state not in [0, 1]` is rejected
before any I/O; otherwise a multiple-register write of `[1,0,0]` / `[0,0,1]`
to start address 1100 is issued. -/
def set_pump_state (slave_id : Nat) (state : Int) (response : List Nat) :
    Bool × List (List Nat) :=
  if state ≠ 0 ∧ state ≠ 1 then
    (false, [])
  else
    let values : List Nat := if state = 1 then [1, 0, 0] else [0, 0, 1]
    let request := _construct_write_multiple_request slave_id 1100 values
    match _parse_write_multiple_response response with
    | .ok (written_address, written_count) =>
        (decide (written_address = 1100 ∧ written_count = 3), [request])
    | .error _ => (false, [request])

/-- Shape of a well-formed function-0x03 response carrying `data` as register
payload: header `[slave, 0x03, byte_count = 2*count]`, payload, CRC16 of the
preceding bytes appended little-endian. -/
def mkReadResponse (slave count : Nat) (data : List Nat) : List Nat :=
  ([slave, 0x03, 2 * count] ++ data)
    ++ pack16le (_calculate_crc ([slave, 0x03, 2 * count] ++ data))

/-- Shape of a well-formed function-0x01 response carrying `data` as coil
payload: header `[slave, 0x01, byte_count = ceil(count/8)]`, payload, CRC16 of
the preceding bytes appended little-endian. -/
def mkCoilsResponse (slave count : Nat) (data : List Nat) : List Nat :=
  ([slave, 0x01, (count + 7) / 8] ++ data)
    ++ pack16le (_calculate_crc ([slave, 0x01, (count + 7) / 8] ++ data))

/-- The CRC acceptance check shared by all response parsers: the little-endian
value of the last two bytes equals the CRC16 of everything before them. -/
def crcValid (r : List Nat) : Prop :=
  le16dec (r.drop (r.length - 2)) = _calculate_crc (r.take (r.length - 2))

instance : ∀ r, Decidable (crcValid r) := fun r => by
  unfold crcValid; infer_instance

/-- Flip bit `j` of byte `i` of a frame. -/
def flipBit (frame : List Nat) (i j : Nat) : List Nat :=
  frame.set i (frame.getD i 0 ^^^ (1 <<< j))

end GearPumpController

namespace RelayControl

/-- `RelayControl.calculate_checksum`: sum of the first 12 bytes, low 8 bits. -/
def calculate_checksum (data : List Nat) : Nat := (data.take 12).sum &&& 0xFF

/-- `RelayControl.create_command`: header `0x48 0x3A`, address, command byte,
data bytes, checksum, trailer `0x45 0x44`. -/
def create_command (address cmd : Nat) (data_bytes : List Nat) : List Nat :=
  let command := [0x48, 0x3A, address, cmd] ++ data_bytes
  command ++ [calculate_checksum command] ++ [0x45, 0x44]

/-- One iteration of the loop in `RelayControl.control_relay` for a
`(channel, state)` pair.  Python's `data_bytes[i] &= ~(0x01 << k)` on a byte
below 256 agrees with `&&& (0xFF ^^^ (0x01 <<< k))`, which is how the clear
branch is modelled. -/
def relayStep (bytes : List Nat) (cs : Nat × Nat) : List Nat :=
  let byte_index := (cs.1 - 1) / 2
  let bit_position := (cs.1 - 1) % 2
  if cs.2 = 1 then
    bytes.set byte_index (bytes.getD byte_index 0 ||| (0x01 <<< (4 * bit_position)))
  else
    bytes.set byte_index (bytes.getD byte_index 0 &&& (0xFF ^^^ (0x01 <<< (4 * bit_position))))

/-- The 8 data bytes computed by `RelayControl.control_relay` from
`zip(channels, states)`, starting from `[0x00] * 8`. -/
def relayData (channels states : List Nat) : List Nat :=
  (channels.zip states).foldl relayStep (List.replicate 8 0)

/-- `RelayControl.control_relay`: the full command frame written to the line. -/
def control_relay (address : Nat) (channels states : List Nat) : List Nat :=
  create_command address 0x57 (relayData channels states)

/-- The only way `RelayControl.read_relay_state` can fail on a received
response: an out-of-range index (`response[4 + i]`) raised as a Python
`IndexError`.  The method performs no length or checksum validation. -/
inductive RelayErr where
  | indexError
deriving DecidableEq, Repr

/-- The decoding loop of `RelayControl.read_relay_state`: for `i` in `0..7`
it appends `response[4+i] & 0x01` and `(response[4+i] & 0x10) >> 4`.  The
accesses `response[4+i]` need `12 ≤ len(response)`; otherwise Python raises
`IndexError` (modelled as `.error .indexError`). -/
def read_relay_state_decode (response : List Nat) : Except RelayErr (List Nat) :=
  if 12 ≤ response.length then
    .ok ((List.range 8).foldl (fun acc i =>
      let byte := response.getD (4 + i) 0
      acc ++ [byte &&& 0x01, (byte &&& 0x10) >>> 4]) [])
  else
    .error .indexError

/-- The state the produced data bytes encode for a given 1-based channel:
bit `4 * ((ch-1) % 2)` of byte `(ch-1) / 2` — odd channels in bit 0, even
channels in bit 4, two channels per byte. -/
def chanBit (bytes : List Nat) (channel : Nat) : Nat :=
  (bytes.getD ((channel - 1) / 2) 0 >>> (4 * ((channel - 1) % 2))) &&& 0x01

end RelayControl


open GearPumpController RelayControl

set_option maxRecDepth 16384 in
/-- C1: `write_register(1200, 500)` on slave id 1 builds exactly the request
`01 06 04 B0 01 F4` followed by the little-endian CRC16 of those six bytes,
and parsing a peer echo of those identical bytes succeeds with `(1200, 500)`. -/
theorem write_register_1200_500_roundtrip :
    (write_register 1 1200 500 (_construct_write_request 1 1200 500)).1
      = [0x01, 0x06, 0x04, 0xB0, 0x01, 0xF4]
          ++ pack16le (_calculate_crc [0x01, 0x06, 0x04, 0xB0, 0x01, 0xF4])
    ∧ (write_register 1 1200 500 (_construct_write_request 1 1200 500)).2
      = Except.ok (1200, 500) := by
  constructor <;> rfl

/-- C6: a relay command frame with command byte `c` and 8 data bytes `d` is
exactly `[0x48, 0x3A, address, c] ++ d` followed by the sum of those first 12
bytes modulo 256 and the trailer `0x45 0x44`. -/
theorem create_command_frame (address cmd : Nat) (d : List Nat)
    (hd : d.length = 8) :
    create_command address cmd d
      = [0x48, 0x3A, address, cmd] ++ d
          ++ [(0x48 + 0x3A + address + cmd + d.sum) % 256, 0x45, 0x44] := by
  have hmask : ∀ x : Nat, x &&& 0xFF = x % 256 := by
    intro x
    have h := Nat.and_pow_two_sub_one_eq_mod x 8
    norm_num at h
    exact h
  simp only [create_command, calculate_checksum]
  have htake : ([0x48, 0x3A, address, cmd] ++ d).take 12
      = [0x48, 0x3A, address, cmd] ++ d :=
    List.take_of_length_le (by simp [hd])
  rw [htake, hmask]
  have hsum : ([0x48, 0x3A, address, cmd] ++ d).sum
      = 0x48 + 0x3A + address + cmd + d.sum := by
    simp [List.sum_append]
    omega
  rw [hsum]
  simp

/-- C6 witness at a concrete data vector. -/
theorem create_command_frame_witness :
    create_command 1 0x57 [1, 1, 0, 0, 0, 0, 0, 16]
      = [0x48, 0x3A, 1, 0x57] ++ [1, 1, 0, 0, 0, 0, 0, 16]
          ++ [(0x48 + 0x3A + 1 + 0x57 + ([1, 1, 0, 0, 0, 0, 0, 16] : List Nat).sum) % 256,
              0x45, 0x44] :=
  create_command_frame 1 0x57 [1, 1, 0, 0, 0, 0, 0, 16] (by decide)

/-- C9: an out-of-range flow rate or rotate rate (outside `0..65535`) or a
pump state other than 0 or 1 is rejected: the operation returns failure and
writes no frame at all to the serial line. -/
theorem validation_rejects_before_io (slave : Nat) (flow rotate state : Int)
    (r1 r2 r3 : List Nat)
    (hflow : ¬(0 ≤ flow ∧ flow ≤ 0xFFFF))
    (hrot : ¬(0 ≤ rotate ∧ rotate ≤ 0xFFFF))
    (hstate : state ≠ 0 ∧ state ≠ 1) :
    set_flow_rate slave flow r1 = (false, [])
    ∧ set_rotate_rate slave rotate r2 = (false, [])
    ∧ set_pump_state slave state r3 = (false, []) := by
  refine ⟨?_, ?_, ?_⟩
  · simp [set_flow_rate, hflow]
  · simp [set_rotate_rate, hrot]
  · simp [set_pump_state, hstate]

/-- C9 witness: flow rate −1, rotate rate 70000, pump state 2. -/
theorem validation_rejects_before_io_witness :
    set_flow_rate 1 (-1) [] = (false, [])
    ∧ set_rotate_rate 1 70000 [] = (false, [])
    ∧ set_pump_state 1 2 [] = (false, []) :=
  validation_rejects_before_io 1 (-1) 70000 2 [] [] []
    (by decide) (by decide) (by decide)

/-- C8 counterexample: on an empty (hence short) relay-state response the
protocol layer does not return a structured incomplete-response result — it
fails with a raw out-of-range index error, the only failure the code can
produce there. -/
theorem read_relay_state_short_is_index_error :
    read_relay_state_decode [] = Except.error RelayErr.indexError := by
  rfl

/-- C8 amended: a relay state read receiving fewer than 12 bytes fails with an
out-of-range index error (an unclassified raw crash), not with a structured
incomplete-response result; the method performs no length validation. -/
theorem read_relay_state_short_raises (response : List Nat)
    (h : response.length < 12) :
    read_relay_state_decode response = Except.error RelayErr.indexError := by
  unfold read_relay_state_decode
  rw [if_neg (by omega)]

/-- C8 witness at a concrete 1-byte response. -/
theorem read_relay_state_short_raises_witness :
    read_relay_state_decode [0x48] = Except.error RelayErr.indexError :=
  read_relay_state_short_raises [0x48] (by decide)

/-- C4: whenever a response is at least as long as expected and its
function-code byte is the request function code with bit `0x80` set, every
parser classifies it as a device exception carrying the third byte as the
exception code — regardless of the value of the byte-count field, which is
only checked afterwards. -/
theorem device_exception_precedence :
    (∀ (response : List Nat) (n : Nat),
        3 + (n + 7) / 8 + 2 ≤ response.length → response.getD 1 0 = 0x81 →
        _parse_coils_response response n
          = Except.error (ModbusErr.deviceException (response.getD 2 0)))
    ∧ (∀ (response : List Nat) (n : Nat),
        5 + 2 * n ≤ response.length → response.getD 1 0 = 0x83 →
        _parse_read_response response n
          = Except.error (ModbusErr.deviceException (response.getD 2 0)))
    ∧ (∀ (response : List Nat),
        8 ≤ response.length → response.getD 1 0 = 0x86 →
        _parse_write_response response
          = Except.error (ModbusErr.deviceException (response.getD 2 0))) := by
  refine ⟨fun response n hlen hfc => ?_, fun response n hlen hfc => ?_,
    fun response hlen hfc => ?_⟩
  · have h1 : ¬ response.length < 3 + (n + 7) / 8 + 2 := by omega
    simp only [_parse_coils_response]
    rw [if_neg h1, if_pos (by rw [hfc]; decide)]
  · have h1 : ¬ response.length < 5 + 2 * n := by omega
    simp only [_parse_read_response]
    rw [if_neg h1, if_pos (by rw [hfc]; decide)]
  · have h1 : ¬ response.length < 8 := by omega
    simp only [_parse_write_response]
    rw [if_neg h1, if_pos (by rw [hfc]; decide)]

/-- C4 witness: frames whose byte-count field is wrong on purpose are still
reported as device exceptions. -/
theorem device_exception_precedence_witness :
    _parse_coils_response [1, 0x81, 7, 0, 0, 0] 1
      = Except.error (ModbusErr.deviceException 7)
    ∧ _parse_read_response [1, 0x83, 9, 0, 0, 0, 0] 1
      = Except.error (ModbusErr.deviceException 9)
    ∧ _parse_write_response [1, 0x86, 2, 0, 0, 0, 0, 0]
      = Except.error (ModbusErr.deviceException 2) :=
  ⟨device_exception_precedence.1 [1, 0x81, 7, 0, 0, 0] 1 (by decide) (by decide),
   device_exception_precedence.2.1 [1, 0x83, 9, 0, 0, 0, 0] 1 (by decide) (by decide),
   device_exception_precedence.2.2 [1, 0x86, 2, 0, 0, 0, 0, 0] (by decide) (by decide)⟩

/-! ### CRC16 step lemmas

Every step of the CRC computation is an injective map on 16-bit states, which
is what makes single-bit corruptions detectable. -/

theorem shiftRight_one_eq (c : Nat) : c >>> 1 = c / 2 := by
  rw [show (1 : Nat) = 0 + 1 by rfl, Nat.shiftRight_succ, Nat.shiftRight_zero]

theorem xor_lt_65536 {a b : Nat} (ha : a < 65536) (hb : b < 65536) :
    a ^^^ b < 65536 := by
  have h16 : (65536 : Nat) = 2 ^ 16 := by norm_num
  rw [h16] at ha hb ⊢
  exact Nat.xor_lt_two_pow ha hb

theorem crcRound_lt {c : Nat} (h : c < 65536) : crcRound c < 65536 := by
  unfold crcRound
  have hs := shiftRight_one_eq c
  split
  · exact xor_lt_65536 (by omega) (by norm_num)
  · omega

theorem crcUnround_round {c : Nat} (h : c < 65536) : crcUnround (crcRound c) = c := by
  have hs := shiftRight_one_eq c
  have hlow : c &&& 1 = c % 2 := Nat.and_one_is_mod c
  have hdiv : c / 2 < 2 ^ 15 := by norm_num; omega
  have htb : (c >>> 1).testBit 15 = false := by
    rw [hs]; exact Nat.testBit_lt_two_pow hdiv
  unfold crcRound crcUnround
  by_cases hp : c &&& 1 = 1
  · rw [if_pos hp]
    have ht : ((c >>> 1) ^^^ 0xA001).testBit 15 = true := by
      rw [Nat.testBit_xor, htb]
      decide
    rw [if_pos ht, Nat.xor_cancel_right, hs]
    omega
  · rw [if_neg hp]
    rw [if_neg (by rw [htb]; exact Bool.false_ne_true), hs]
    omega

theorem crcRound_injOn {a b : Nat} (ha : a < 65536) (hb : b < 65536)
    (h : crcRound a = crcRound b) : a = b := by
  rw [← crcUnround_round ha, ← crcUnround_round hb, h]

theorem crcIter_lt : ∀ (n : Nat) {c : Nat}, c < 65536 → crcRound^[n] c < 65536
  | 0, _, h => h
  | n + 1, _, h => by
      rw [Function.iterate_succ_apply]
      exact crcIter_lt n (crcRound_lt h)

theorem crcIter_injOn : ∀ (n : Nat) {a b : Nat}, a < 65536 → b < 65536 →
    crcRound^[n] a = crcRound^[n] b → a = b
  | 0, _, _, _, _, h => h
  | n + 1, _, _, ha, hb, h => by
      rw [Function.iterate_succ_apply, Function.iterate_succ_apply] at h
      exact crcRound_injOn ha hb
        (crcIter_injOn n (crcRound_lt ha) (crcRound_lt hb) h)

theorem crcByte_lt {c b : Nat} (hc : c < 65536) (hb : b < 65536) :
    crcByte c b < 65536 :=
  crcIter_lt 8 (xor_lt_65536 hc hb)

theorem crcByte_injOn_left {c c' b : Nat} (hc : c < 65536) (hc' : c' < 65536)
    (hb : b < 65536) (h : crcByte c b = crcByte c' b) : c = c' :=
  Nat.xor_left_inj.mp
    (crcIter_injOn 8 (xor_lt_65536 hc hb) (xor_lt_65536 hc' hb) h)

theorem crcByte_injOn_right {c b b' : Nat} (hc : c < 65536) (hb : b < 65536)
    (hb' : b' < 65536) (h : crcByte c b = crcByte c b') : b = b' :=
  Nat.xor_right_inj.mp
    (crcIter_injOn 8 (xor_lt_65536 hc hb) (xor_lt_65536 hc hb') h)

theorem crcFold_lt : ∀ (l : List Nat) {c : Nat}, (∀ x ∈ l, x < 65536) →
    c < 65536 → l.foldl crcByte c < 65536
  | [], _, _, hc => hc
  | b :: t, c, hl, hc => by
      simp only [List.foldl_cons]
      exact crcFold_lt t (fun x hx => hl x (List.mem_cons_of_mem _ hx))
        (crcByte_lt hc (hl b (List.mem_cons_self b t)))

theorem crcFold_injOn : ∀ (l : List Nat) {c c' : Nat}, (∀ x ∈ l, x < 65536) →
    c < 65536 → c' < 65536 → l.foldl crcByte c = l.foldl crcByte c' → c = c'
  | [], _, _, _, _, _, h => h
  | b :: t, c, c', hl, hc, hc', h => by
      simp only [List.foldl_cons] at h
      have hb := hl b (List.mem_cons_self b t)
      have ht := fun x hx => hl x (List.mem_cons_of_mem b hx)
      exact crcByte_injOn_left hc hc' hb
        (crcFold_injOn t ht (crcByte_lt hc hb) (crcByte_lt hc' hb) h)

theorem calculate_crc_lt {l : List Nat} (hl : ∀ x ∈ l, x < 65536) :
    _calculate_crc l < 65536 :=
  crcFold_lt l hl (by norm_num)

theorem le16dec_pack16le {v : Nat} (h : v < 65536) : le16dec (pack16le v) = v := by
  simp [le16dec, pack16le]
  omega

theorem getD_of_lt {l : List Nat} {i : Nat} (h : i < l.length) :
    l.getD i 0 = l[i] := by
  simp [List.getD_eq_getElem?_getD, List.getElem?_eq_getElem h]

theorem getD_mem_of_lt {l : List Nat} {i : Nat} (h : i < l.length) :
    l.getD i 0 ∈ l := by
  rw [getD_of_lt h]
  exact List.getElem_mem h

theorem shift_one_lt {j : Nat} (hj : j < 8) : 1 <<< j < 65536 := by
  rw [Nat.shiftLeft_eq, one_mul]
  calc 2 ^ j ≤ 2 ^ 7 := Nat.pow_le_pow_right (by norm_num) (by omega)
    _ < 65536 := by norm_num

theorem shift_one_ne_zero (j : Nat) : 1 <<< j ≠ 0 := by
  rw [Nat.shiftLeft_eq, one_mul]
  exact Nat.pos_iff_ne_zero.mp (Nat.two_pow_pos j)

theorem xor_shift_ne {b j : Nat} : b ^^^ (1 <<< j) ≠ b := by
  intro hEq
  exact shift_one_ne_zero j
    (Nat.xor_right_inj.mp (hEq.trans (Nat.xor_zero b).symm))

theorem calculate_crc_set_ne (l : List Nat) (i x : Nat)
    (hl : ∀ b ∈ l, b < 65536) (hi : i < l.length) (hx : x < 65536)
    (hne : x ≠ l.getD i 0) :
    _calculate_crc (l.set i x) ≠ _calculate_crc l := by
  intro heq
  have hset : l.set i x = l.take i ++ x :: l.drop (i + 1) :=
    List.set_eq_take_cons_drop x hi
  have hsplit : l = l.take i ++ l.getD i 0 :: l.drop (i + 1) := by
    conv_lhs => rw [← List.take_append_drop i l]
    rw [List.drop_eq_getElem_cons hi, getD_of_lt hi]
  unfold _calculate_crc at heq
  rw [hset] at heq
  conv at heq => rhs; rw [hsplit]
  rw [List.foldl_append, List.foldl_append] at heq
  simp only [List.foldl_cons] at heq
  have hstake : ∀ b ∈ l.take i, b < 65536 :=
    fun b hb => hl b (List.take_subset i l hb)
  have hdropb : ∀ b ∈ l.drop (i + 1), b < 65536 :=
    fun b hb => hl b (List.drop_subset _ l hb)
  have hslt : (l.take i).foldl crcByte 0xFFFF < 65536 :=
    crcFold_lt _ hstake (by norm_num)
  have hgd : l.getD i 0 < 65536 := hl _ (getD_mem_of_lt hi)
  exact hne (crcByte_injOn_right hslt hx hgd
    (crcFold_injOn (l.drop (i + 1)) hdropb
      (crcByte_lt hslt hx) (crcByte_lt hslt hgd) heq))

/-- C5: a frame that passes the parsers' CRC acceptance check stops passing it
after flipping any single bit of any of its bytes — including a bit inside the
trailing two-byte CRC field — and the function-0x03 response parser only ever
accepts a CRC-valid frame, so the flipped frame is no longer accepted. -/
theorem crc_single_bit_flip_detected (frame : List Nat) (i j : Nat)
    (hvalid : crcValid frame) (hbytes : ∀ b ∈ frame, b < 256)
    (hlen : 2 ≤ frame.length) (hi : i < frame.length) (hj : j < 8) :
    ¬ crcValid (flipBit frame i j)
    ∧ (∀ (response : List Nat) (count : Nat) (v : ReadValue),
        _parse_read_response response count = Except.ok v → crcValid response) := by
  constructor
  · intro hflip
    have hb256 : frame.getD i 0 < 256 := hbytes _ (getD_mem_of_lt hi)
    have hxlt : frame.getD i 0 ^^^ (1 <<< j) < 65536 :=
      xor_lt_65536 (by omega) (shift_one_lt hj)
    have hlset : (flipBit frame i j).length = frame.length := by
      simp [flipBit]
    unfold crcValid at hvalid hflip
    rw [hlset] at hflip
    by_cases hcase : i < frame.length - 2
    · -- the flipped bit lies in the CRC-covered part of the frame
      have htake : (flipBit frame i j).take (frame.length - 2)
          = (frame.take (frame.length - 2)).set i (frame.getD i 0 ^^^ (1 <<< j)) := by
        simp [flipBit, List.set_take]
      have hdropeq : (flipBit frame i j).drop (frame.length - 2)
          = frame.drop (frame.length - 2) := by
        simp only [flipBit, List.drop_set, if_pos hcase]
      rw [htake, hdropeq] at hflip
      have htbytes : ∀ b ∈ frame.take (frame.length - 2), b < 65536 := fun b hb => by
        have := hbytes b (List.take_subset _ _ hb); omega
      have hitake : i < (frame.take (frame.length - 2)).length := by
        simp [List.length_take]; omega
      have hgd : (frame.take (frame.length - 2)).getD i 0 = frame.getD i 0 := by
        simp only [List.getD_eq_getElem?_getD, List.getElem?_take_of_lt hcase]
      have hne : frame.getD i 0 ^^^ (1 <<< j)
          ≠ (frame.take (frame.length - 2)).getD i 0 := by
        rw [hgd]; exact xor_shift_ne
      exact calculate_crc_set_ne (frame.take (frame.length - 2)) i _
        htbytes hitake hxlt hne (hflip.symm.trans hvalid)
    · -- the flipped bit lies in one of the two trailing CRC bytes
      have htake2 : (flipBit frame i j).take (frame.length - 2)
          = frame.take (frame.length - 2) := by
        simp only [flipBit, List.set_take]
        exact List.set_eq_of_length_le (by simp [List.length_take]; omega)
      have hdrop2 : (flipBit frame i j).drop (frame.length - 2)
          = (frame.drop (frame.length - 2)).set (i - (frame.length - 2))
              (frame.getD i 0 ^^^ (1 <<< j)) := by
        simp only [flipBit, List.drop_set,
          if_neg (show ¬ i < frame.length - 2 from hcase)]
      rw [htake2, hdrop2] at hflip
      have hdlen : (frame.drop (frame.length - 2)).length = 2 := by
        simp [List.length_drop]; omega
      have hgdd : (frame.drop (frame.length - 2)).getD (i - (frame.length - 2)) 0
          = frame.getD i 0 := by
        simp only [List.getD_eq_getElem?_getD, List.getElem?_drop]
        congr 2
        omega
      -- the flipped CRC field decodes to a different value than the original
      have hfinal : le16dec ((frame.drop (frame.length - 2)).set
          (i - (frame.length - 2)) (frame.getD i 0 ^^^ (1 <<< j)))
          ≠ le16dec (frame.drop (frame.length - 2)) := by
        have hk2 : i - (frame.length - 2) < 2 := by omega
        have hxne : frame.getD i 0 ^^^ (1 <<< j) ≠ frame.getD i 0 := xor_shift_ne
        interval_cases h : i - (frame.length - 2)
        · have h0 : ((frame.drop (frame.length - 2)).set 0
              (frame.getD i 0 ^^^ (1 <<< j))).getD 0 0
              = frame.getD i 0 ^^^ (1 <<< j) := by
            simp only [List.getD_eq_getElem?_getD,
              List.getElem?_set_self (by omega : 0 < (frame.drop (frame.length - 2)).length)]
            rfl
          have h1 : ((frame.drop (frame.length - 2)).set 0
              (frame.getD i 0 ^^^ (1 <<< j))).getD 1 0
              = (frame.drop (frame.length - 2)).getD 1 0 := by
            simp only [List.getD_eq_getElem?_getD,
              List.getElem?_set_ne (by omega : (0 : Nat) ≠ 1)]
          simp only [le16dec, h0, h1]
          rw [hgdd]
          omega
        · have h0 : ((frame.drop (frame.length - 2)).set 1
              (frame.getD i 0 ^^^ (1 <<< j))).getD 0 0
              = (frame.drop (frame.length - 2)).getD 0 0 := by
            simp only [List.getD_eq_getElem?_getD,
              List.getElem?_set_ne (by omega : (1 : Nat) ≠ 0)]
          have h1 : ((frame.drop (frame.length - 2)).set 1
              (frame.getD i 0 ^^^ (1 <<< j))).getD 1 0
              = frame.getD i 0 ^^^ (1 <<< j) := by
            simp only [List.getD_eq_getElem?_getD,
              List.getElem?_set_self (by omega : 1 < (frame.drop (frame.length - 2)).length)]
            rfl
          simp only [le16dec, h0, h1]
          rw [hgdd]
          omega
      exact hfinal (hflip.trans hvalid.symm)
  · intro response count v h
    simp only [_parse_read_response] at h
    split at h
    · exact absurd h (by simp)
    split at h
    · exact absurd h (by simp)
    split at h
    · exact absurd h (by simp)
    split at h
    · exact absurd h (by simp)
    rename_i hcrc
    unfold crcValid
    omega

set_option maxRecDepth 32768 in
/-- C5 witness: a valid write-echo frame with its lowest bit flipped fails
the CRC check. -/
theorem crc_single_bit_flip_detected_witness :
    ¬ crcValid (flipBit (_construct_write_request 1 1200 500) 0 0) :=
  (crc_single_bit_flip_detected (_construct_write_request 1 1200 500) 0 0
    (by decide) (by decide) (by decide) (by decide) (by decide)).1

/-! ### Register payload decoding -/

theorem words16be_length : ∀ l : List Nat, (words16be l).length = l.length / 2
  | [] => rfl
  | [_] => by simp [words16be]
  | _ :: _ :: rest => by
      simp only [words16be, List.length_cons, words16be_length rest]
      omega

theorem words16be_getD : ∀ (l : List Nat) (i : Nat), 2 * i + 1 < l.length →
    (words16be l).getD i 0 = 256 * l.getD (2 * i) 0 + l.getD (2 * i + 1) 0
  | [], _, h => by simp at h
  | [_], _, h => by
      simp only [List.length_cons, List.length_nil] at h
      omega
  | a :: b :: rest, 0, _ => by simp [words16be]
  | a :: b :: rest, i + 1, h => by
      have h' : 2 * i + 1 < rest.length := by
        simp only [List.length_cons] at h; omega
      have e1 : 2 * (i + 1) = (2 * i + 1) + 1 := by ring
      have e2 : 2 * (i + 1) + 1 = (2 * i + 1 + 1) + 1 := by ring
      simp only [words16be, List.getD_cons_succ, e1, e2]
      exact words16be_getD rest i h'

set_option maxRecDepth 32768 in
/-- C2: decoding a well-formed function-0x03 response returns the single
big-endian register value when the register count is 1, and the ordered list
of big-endian 16-bit values when the count exceeds 1; in particular
`read_register(1214)` against a peer replying `01 03 02 00 32 <CRC>`
returns `50`. -/
theorem read_response_decoding (slave count : Nat) (data : List Nat)
    (hcount : 1 ≤ count) (hlen : data.length = 2 * count)
    (hbc : 2 * count < 256) (hslave : slave < 256)
    (hbytes : ∀ b ∈ data, b < 256) :
    (_parse_read_response (mkReadResponse slave count data) count
      = if count = 1 then
          Except.ok (ReadValue.single (256 * data.getD 0 0 + data.getD 1 0))
        else Except.ok (ReadValue.multiple (words16be data)))
    ∧ (words16be data).length = count
    ∧ (∀ i < count, (words16be data).getD i 0
        = 256 * data.getD (2 * i) 0 + data.getD (2 * i + 1) 0)
    ∧ (read_register 1 1214 1 (mkReadResponse 1 1 [0x00, 0x32])).2
      = Except.ok (ReadValue.single 50) := by
  refine ⟨?_, by rw [words16be_length, hlen]; omega,
    fun i hi => words16be_getD data i (by omega), by rfl⟩
  have hB : ([slave, 0x03, 2 * count] ++ data).length = 3 + 2 * count := by
    simp [hlen]
    omega
  have hBbytes : ∀ b ∈ [slave, 0x03, 2 * count] ++ data, b < 65536 := by
    intro b hb
    rcases List.mem_append.mp hb with h | h
    · simp only [List.mem_cons, List.not_mem_nil, or_false] at h
      rcases h with rfl | rfl | rfl <;> omega
    · have := hbytes b h; omega
  have hcrcB : _calculate_crc ([slave, 0x03, 2 * count] ++ data) < 65536 :=
    calculate_crc_lt hBbytes
  have hlen5 : (mkReadResponse slave count data).length = 5 + 2 * count := by
    simp only [mkReadResponse, List.length_append, List.length_cons,
      List.length_nil, pack16le, hlen]
    omega
  have hassoc : mkReadResponse slave count data
      = [slave, 0x03, 2 * count]
          ++ (data ++ pack16le (_calculate_crc ([slave, 0x03, 2 * count] ++ data))) := by
    simp [mkReadResponse]
  have hfc : (mkReadResponse slave count data).getD 1 0 = 0x03 := by
    rw [hassoc]; simp
  have hbcgd : (mkReadResponse slave count data).getD 2 0 = 2 * count := by
    rw [hassoc]; simp
  have htake : (mkReadResponse slave count data).take (5 + 2 * count - 2)
      = [slave, 0x03, 2 * count] ++ data := by
    rw [show 5 + 2 * count - 2 = 3 + 2 * count from by omega]
    exact List.take_left' hB
  have hdrop : (mkReadResponse slave count data).drop (5 + 2 * count - 2)
      = pack16le (_calculate_crc ([slave, 0x03, 2 * count] ++ data)) := by
    rw [show 5 + 2 * count - 2 = 3 + 2 * count from by omega]
    exact List.drop_left' hB
  have hdata3 : ((mkReadResponse slave count data).drop 3).take (2 * count)
      = data := by
    rw [hassoc,
      List.drop_left' (by rfl : ([slave, 0x03, 2 * count] : List Nat).length = 3)]
    exact List.take_left' hlen
  simp only [_parse_read_response]
  rw [hlen5, if_neg (by omega), hfc, if_neg (by decide), hbcgd,
    if_neg (fun hne => hne rfl), hdata3, htake, hdrop,
    le16dec_pack16le hcrcB, if_neg (fun hne => hne rfl)]
  by_cases hc : count = 1
  · subst hc
    rw [if_neg (by omega), if_pos rfl]
    rcases data with _ | ⟨a, _ | ⟨b, _ | ⟨c, t⟩⟩⟩
    · simp at hlen
    · simp at hlen
    · simp [words16be]
    · simp at hlen
  · rw [if_pos (by omega), if_neg hc]

/-- C2 witness: a two-register response decodes to the ordered word list. -/
theorem read_response_decoding_witness :
    _parse_read_response (mkReadResponse 1 2 [0, 1, 0, 2]) 2
      = Except.ok (ReadValue.multiple (words16be [0, 1, 0, 2])) := by
  have h := (read_response_decoding 1 2 [0, 1, 0, 2] (by decide) (by decide)
    (by decide) (by decide) (by decide)).1
  rwa [if_neg (by decide)] at h

set_option maxRecDepth 32768 in
/-- C3: for a coil read of `n` coils the expected payload is `(n+7)/8` bytes
(the least number of bytes holding `n` coils), and decoding a well-formed
response yields exactly `n` values, each 0 or 1, coil `i` being bit `i % 8`
of data byte `i / 8`; padding bits beyond the requested coils are ignored —
for `n = 3` only the low 3 bits of the single data byte matter. -/
theorem coils_response_decoding (slave n : Nat) (data : List Nat)
    (hlen : data.length = (n + 7) / 8) (hbce : (n + 7) / 8 < 256)
    (hslave : slave < 256) (hbytes : ∀ b ∈ data, b < 256) :
    (_parse_coils_response (mkCoilsResponse slave n data) n
      = Except.ok ((List.range n).map fun i =>
          (data.getD (i / 8) 0 >>> (i % 8)) &&& 0x01))
    ∧ ((List.range n).map fun i =>
        (data.getD (i / 8) 0 >>> (i % 8)) &&& 0x01).length = n
    ∧ (∀ x ∈ (List.range n).map fun i =>
        (data.getD (i / 8) 0 >>> (i % 8)) &&& 0x01, x = 0 ∨ x = 1)
    ∧ (n ≤ 8 * ((n + 7) / 8) ∧ ∀ k, n ≤ 8 * k → (n + 7) / 8 ≤ k)
    ∧ (∀ d d' : Nat, d % 8 = d' % 8 →
        ((List.range 3).map fun i =>
          (([d] : List Nat).getD (i / 8) 0 >>> (i % 8)) &&& 0x01)
        = (List.range 3).map fun i =>
          (([d'] : List Nat).getD (i / 8) 0 >>> (i % 8)) &&& 0x01) := by
  have hsr : ∀ (x k : Nat), (x >>> k) &&& 1 = x / 2 ^ k % 2 := fun x k => by
    rw [Nat.and_one_is_mod, Nat.shiftRight_eq_div_pow]
  refine ⟨?_, by simp, ?_, ⟨by omega, fun k hk => by omega⟩, ?_⟩
  · have hB : ([slave, 0x01, (n + 7) / 8] ++ data).length = 3 + (n + 7) / 8 := by
      simp [hlen]
      omega
    have hBbytes : ∀ b ∈ [slave, 0x01, (n + 7) / 8] ++ data, b < 65536 := by
      intro b hb
      rcases List.mem_append.mp hb with h | h
      · simp only [List.mem_cons, List.not_mem_nil, or_false] at h
        rcases h with rfl | rfl | rfl <;> omega
      · have := hbytes b h; omega
    have hcrcB : _calculate_crc ([slave, 0x01, (n + 7) / 8] ++ data) < 65536 :=
      calculate_crc_lt hBbytes
    have hlen5 : (mkCoilsResponse slave n data).length = 5 + (n + 7) / 8 := by
      simp only [mkCoilsResponse, List.length_append, List.length_cons,
        List.length_nil, pack16le, hlen]
      omega
    have hassoc : mkCoilsResponse slave n data
        = [slave, 0x01, (n + 7) / 8]
            ++ (data ++ pack16le (_calculate_crc ([slave, 0x01, (n + 7) / 8] ++ data))) := by
      simp [mkCoilsResponse]
    have hfc : (mkCoilsResponse slave n data).getD 1 0 = 0x01 := by
      rw [hassoc]; simp
    have hbcgd : (mkCoilsResponse slave n data).getD 2 0 = (n + 7) / 8 := by
      rw [hassoc]; simp
    have htake : (mkCoilsResponse slave n data).take (5 + (n + 7) / 8 - 2)
        = [slave, 0x01, (n + 7) / 8] ++ data := by
      rw [show 5 + (n + 7) / 8 - 2 = 3 + (n + 7) / 8 from by omega]
      exact List.take_left' hB
    have hdrop : (mkCoilsResponse slave n data).drop (5 + (n + 7) / 8 - 2)
        = pack16le (_calculate_crc ([slave, 0x01, (n + 7) / 8] ++ data)) := by
      rw [show 5 + (n + 7) / 8 - 2 = 3 + (n + 7) / 8 from by omega]
      exact List.drop_left' hB
    have hdata3 : ((mkCoilsResponse slave n data).drop 3).take ((n + 7) / 8)
        = data := by
      rw [hassoc,
        List.drop_left' (by rfl : ([slave, 0x01, (n + 7) / 8] : List Nat).length = 3)]
      exact List.take_left' hlen
    simp only [_parse_coils_response]
    rw [hlen5, if_neg (by omega), hfc, if_neg (by decide), hbcgd,
      if_neg (fun hne => hne rfl), hdata3, htake, hdrop,
      le16dec_pack16le hcrcB, if_neg (fun hne => hne rfl)]
  · intro x hx
    simp only [List.mem_map, List.mem_range] at hx
    obtain ⟨i, hi, rfl⟩ := hx
    rw [Nat.and_one_is_mod]
    omega
  · intro d d' hmod
    apply List.map_congr_left
    intro i hi
    simp only [List.mem_range] at hi
    interval_cases i <;> norm_num [hsr] <;> omega

/-- C3 witness: three coils from a single data byte. -/
theorem coils_response_decoding_witness :
    _parse_coils_response (mkCoilsResponse 1 3 [5]) 3
      = Except.ok ((List.range 3).map fun i =>
          (([5] : List Nat).getD (i / 8) 0 >>> (i % 8)) &&& 0x01) :=
  (coils_response_decoding 1 3 [5] (by decide) (by decide) (by decide)
    (by decide)).1

/-! ### Relay channel bit layout -/

namespace RelayControl

theorem shift_and_one_eq_testBit (x k : Nat) :
    (x >>> k) &&& 1 = if x.testBit k then 1 else 0 := by
  rw [Nat.and_one_is_mod, Nat.shiftRight_eq_div_pow, Nat.testBit_to_div_mod]
  rcases Nat.mod_two_eq_zero_or_one (x / 2 ^ k) with h | h <;> simp [h]

theorem or_bit_preserve {b kc kh : Nat} (h : kc ≠ kh) :
    ((b ||| (1 <<< kc)) >>> kh) &&& 1 = (b >>> kh) &&& 1 := by
  rw [shift_and_one_eq_testBit, shift_and_one_eq_testBit, Nat.testBit_or,
    Nat.shiftLeft_eq, one_mul, Nat.testBit_two_pow_of_ne h]
  simp

theorem and_mask_preserve {b kc kh : Nat} (h : kc ≠ kh) (hkh : kh < 8) :
    ((b &&& (0xFF ^^^ (1 <<< kc))) >>> kh) &&& 1 = (b >>> kh) &&& 1 := by
  rw [shift_and_one_eq_testBit, shift_and_one_eq_testBit, Nat.testBit_and,
    Nat.testBit_xor, Nat.shiftLeft_eq, one_mul, Nat.testBit_two_pow_of_ne h]
  have h255 : (0xFF : Nat).testBit kh = true := by
    rw [show (0xFF : Nat) = 2 ^ 8 - 1 from by norm_num,
      Nat.testBit_two_pow_sub_one]
    simpa using hkh
  rw [h255]
  simp

theorem relayStep_preserve (bytes : List Nat) (c s ch : Nat)
    (hc1 : 1 ≤ c) (hc16 : c ≤ 16) (hch1 : 1 ≤ ch) (hch16 : ch ≤ 16)
    (hne : c ≠ ch) :
    chanBit (relayStep bytes (c, s)) ch = chanBit bytes ch := by
  simp only [relayStep, chanBit]
  by_cases hbi : (c - 1) / 2 = (ch - 1) / 2
  · have hbit : 4 * ((c - 1) % 2) ≠ 4 * ((ch - 1) % 2) := by omega
    by_cases hin : (c - 1) / 2 < bytes.length
    · split <;>
        · rw [← hbi]
          simp only [List.getD_eq_getElem?_getD, List.getElem?_set_self hin,
            Option.getD_some]
          first
            | exact or_bit_preserve hbit
            | exact and_mask_preserve hbit (by omega)
    · have hno : ∀ v, bytes.set ((c - 1) / 2) v = bytes :=
        fun v => List.set_eq_of_length_le (by omega)
      split <;> rw [hno]
  · split <;>
      simp only [List.getD_eq_getElem?_getD, List.getElem?_set_ne hbi]

theorem relayFold_preserve :
    ∀ (pairs : List (Nat × Nat)) (bytes : List Nat) (ch : Nat),
    1 ≤ ch → ch ≤ 16 → (∀ p ∈ pairs, p.1 ≠ ch ∧ 1 ≤ p.1 ∧ p.1 ≤ 16) →
    chanBit (pairs.foldl relayStep bytes) ch = chanBit bytes ch
  | [], _, _, _, _, _ => rfl
  | (c, s) :: t, bytes, ch, h1, h16, hp => by
      simp only [List.foldl_cons]
      have hc := hp (c, s) (List.mem_cons_self _ t)
      rw [relayFold_preserve t _ ch h1 h16
        (fun p hm => hp p (List.mem_cons_of_mem _ hm))]
      exact relayStep_preserve bytes c s ch hc.2.1 hc.2.2 h1 h16 hc.1

end RelayControl

/-- C7: data byte `k` carries odd channel `2k+1` in bit 0 and even channel
`2k+2` in bit 4, both for encoding and decoding; encoding channels `{1,3,16}`
all-on sets exactly bit 0 of byte 0, bit 0 of byte 1 and bit 4 of byte 7, and
decoding those bytes reproduces exactly channels 1, 3 and 16 on. -/
theorem relay_bit_packing (k : Nat) (hk : k < 8) (r : List Nat)
    (hr : 12 ≤ r.length) :
    (relayData [2 * k + 1] [1] = (List.replicate 8 0).set k 0x01
      ∧ relayData [2 * k + 2] [1] = (List.replicate 8 0).set k 0x10)
    ∧ read_relay_state_decode r = Except.ok
        [r.getD 4 0 &&& 0x01, (r.getD 4 0 &&& 0x10) >>> 4,
         r.getD 5 0 &&& 0x01, (r.getD 5 0 &&& 0x10) >>> 4,
         r.getD 6 0 &&& 0x01, (r.getD 6 0 &&& 0x10) >>> 4,
         r.getD 7 0 &&& 0x01, (r.getD 7 0 &&& 0x10) >>> 4,
         r.getD 8 0 &&& 0x01, (r.getD 8 0 &&& 0x10) >>> 4,
         r.getD 9 0 &&& 0x01, (r.getD 9 0 &&& 0x10) >>> 4,
         r.getD 10 0 &&& 0x01, (r.getD 10 0 &&& 0x10) >>> 4,
         r.getD 11 0 &&& 0x01, (r.getD 11 0 &&& 0x10) >>> 4]
    ∧ relayData [1, 3, 16] [1, 1, 1] = [0x01, 0x01, 0, 0, 0, 0, 0, 0x10]
    ∧ read_relay_state_decode
        ([0x48, 0x3A, 0x01, 0x53] ++ relayData [1, 3, 16] [1, 1, 1] ++ [0, 0, 0])
      = Except.ok [1, 0, 1, 0, 0, 0, 0, 0, 0, 0, 0, 0, 0, 0, 0, 1] := by
  refine ⟨?_, ?_, by decide, by rfl⟩
  · exact (by decide : ∀ k' < 8,
      relayData [2 * k' + 1] [1] = (List.replicate 8 0).set k' 0x01
        ∧ relayData [2 * k' + 2] [1] = (List.replicate 8 0).set k' 0x10) k hk
  · unfold read_relay_state_decode
    rw [if_pos hr]
    rfl

/-- C7 witness: channel 1 lands in bit 0 of byte 0. -/
theorem relay_bit_packing_witness :
    relayData [1, 3, 16] [1, 1, 1] = [0x01, 0x01, 0, 0, 0, 0, 0, 0x10] :=
  (relay_bit_packing 0 (by decide) (List.replicate 15 0) (by decide)).2.2.1

/-- C10: `control_relay` always writes a full 16-channel image: every channel
between 1 and 16 that is not listed in `channels` is encoded as state 0 (off)
in the produced 8 data bytes, so a partial write switches unlisted channels
off rather than leaving them unchanged. -/
theorem control_relay_unlisted_channels_off (address : Nat)
    (channels states : List Nat) (ch : Nat)
    (hchannels : ∀ c ∈ channels, 1 ≤ c ∧ c ≤ 16)
    (hch1 : 1 ≤ ch) (hch16 : ch ≤ 16) (hnot : ch ∉ channels) :
    chanBit (relayData channels states) ch = 0
    ∧ control_relay address channels states
      = create_command address 0x57 (relayData channels states) := by
  refine ⟨?_, rfl⟩
  unfold relayData
  have hp : ∀ p ∈ channels.zip states, p.1 ≠ ch ∧ 1 ≤ p.1 ∧ p.1 ≤ 16 := by
    intro p hpz
    have hmem : p.1 ∈ channels := by
      rcases p with ⟨a, b⟩
      exact (List.of_mem_zip hpz).1
    exact ⟨fun he => hnot (he ▸ hmem), (hchannels _ hmem).1, (hchannels _ hmem).2⟩
  rw [RelayControl.relayFold_preserve (channels.zip states) _ ch hch1 hch16 hp]
  exact (by decide : ∀ c < 17, chanBit (List.replicate 8 0) c = 0) ch (by omega)

/-- C10 witness: writing only channels 1 and 3 encodes channel 2 as off. -/
theorem control_relay_unlisted_channels_off_witness :
    chanBit (relayData [1, 3] [1, 1]) 2 = 0
    ∧ control_relay 1 [1, 3] [1, 1]
      = create_command 1 0x57 (relayData [1, 3] [1, 1]) :=
  control_relay_unlisted_channels_off 1 [1, 3] [1, 1] 2
    (by decide) (by decide) (by decide) (by decide)
